import Mathlib

/-!
Shallow embedding of the virtual-memory simulator in `pa3.c` (two-level page
table, TLB, frame allocator with reference counts, COW page-fault handler,
process switch/fork), together with proofs about the claims of the design
specification.

Modelling conventions, matching the C source:
* C `unsigned int` counters live in `Nat`; the `++`/`--` the code performs on
  `mapcounts` entries are `inc32`/`dec32`, which wrap at 2^32 exactly as the
  32-bit machine operations do on their value range.
* The global array `mapcounts[NR_PAGEFRAMES]` is a `List Nat`; the C loops
  `for (i = 0; i < NR_PAGEFRAMES; i++)` scan the array cells in ascending
  order, which is the structural recursion over that list.
* An inner page directory (`struct pte_directory`, `NR_PTES_PER_PAGE` PTEs) is
  a `List PTE`; the per-process outer directory (`struct pagetable`) is a
  `List (Option (List PTE))`, `none` standing for a NULL `outer_ptes[i]`.
  Memory returned by `malloc` is modelled as zero-initialized (all PTE fields
  0/false, all child outer slots NULL): the simulator relies on fresh
  directories containing only invalid PTEs.
* The intrusive ready queue (`list_head`, declared in the framework headers,
  which are not part of this source tree) is modelled from the specification
  as a `List Process` in queue order: `list_add_tail` appends at the tail,
  `list_del` removes the node from the queue it is linked into and is a no-op
  on a node that is not linked into the queue.
* `ptbr` always points at `current->pagetable` (the code reassigns it whenever
  `current` changes), so the model reads the page table through `current`.
* The C functions that report failure through a sentinel (`alloc_page`
  returning `(unsigned)-1`) or an out-parameter plus `bool` (`lookup_tlb`)
  return `Option Nat` here.
-/

set_option maxRecDepth 10000

/-- Number of PTEs per page directory, `1 << PTES_PER_PAGE_SHIFT` with
`PTES_PER_PAGE_SHIFT = 4` in the framework configuration. -/
def NR_PTES_PER_PAGE : Nat := 16

/-- Number of physical page frames in the framework configuration. -/
def NR_PAGEFRAMES : Nat := 128

/-- Number of TLB entries, `1 << (PTES_PER_PAGE_SHIFT * 2)`: one slot per
addressable VPN, so insertion never runs out of slots. -/
def NR_TLB_ENTRIES : Nat := 256

/-- Access flag `ACCESS_READ = 0x01`. -/
def ACCESS_READ : Nat := 1

/-- Access flag `ACCESS_WRITE = 0x02`. -/
def ACCESS_WRITE : Nat := 2

/-- Largest value of a C `unsigned int`. -/
def UINT32_MAX : Nat := 4294967295

/-- Increment of a 32-bit unsigned counter (`x++` in the C source): wraps to 0
at `UINT32_MAX`.  Agrees with `x + 1` on every value a 32-bit cell can hold
except `UINT32_MAX`. -/
def inc32 (n : Nat) : Nat := if n = UINT32_MAX then 0 else n + 1

/-- Decrement of a 32-bit unsigned counter (`x--` in the C source): wraps to
`UINT32_MAX` at 0. -/
def dec32 (n : Nat) : Nat := if n = 0 then UINT32_MAX else n - 1

/-- Page table entry, `struct pte`: valid bit, current permission `rw`,
originally granted permission `private` (the COW ceiling), frame number
`pfn`. -/
structure PTE where
  valid : Bool
  rw : Nat
  «private» : Nat
  pfn : Nat
deriving DecidableEq, Repr

/-- An all-zero PTE: the content of a freshly zeroed directory slot, and the
value `free_page` resets a slot to. -/
def zeroPTE : PTE := ⟨false, 0, 0, 0⟩

/-- A freshly allocated (zero-initialized) inner page directory. -/
def freshDir : List PTE := List.replicate NR_PTES_PER_PAGE zeroPTE

/-- A per-process page table, `struct pagetable`: the outer directory, whose
slots hold `none` for a NULL pointer or `some` inner directory. -/
abbrev Pagetable := List (Option (List PTE))

/-- TLB entry, `struct tlb_entry`: valid bit, cached vpn, cached permission,
cached pfn. -/
structure TLBEntry where
  valid : Bool
  vpn : Nat
  rw : Nat
  pfn : Nat
deriving DecidableEq, Repr

/-- The value `free_page` and `switch_process` overwrite a TLB slot with:
`valid = false` and every other field set to `(unsigned)-1`. -/
def invalidTLBEntry : TLBEntry := ⟨false, UINT32_MAX, UINT32_MAX, UINT32_MAX⟩

/-- A process: its pid and its page table.  The intrusive queue link of
`struct process` is represented by membership in the ready-queue list. -/
structure Process where
  pid : Nat
  pagetable : Pagetable
deriving DecidableEq, Repr

/-- Global state of the simulator: the ready queue `processes` (in queue
order, head = front), the running process `current`, the TLB array and the
frame reference-count array `mapcounts`. -/
structure VMState where
  processes : List Process
  current : Process
  tlb : List TLBEntry
  mapcounts : List Nat
deriving DecidableEq, Repr

/-- Outer-directory index of a vpn, `vpn / NR_PTES_PER_PAGE`. -/
def outerIndex (vpn : Nat) : Nat := vpn / NR_PTES_PER_PAGE

/-- Inner-directory index of a vpn, `vpn % NR_PTES_PER_PAGE`. -/
def innerIndex (vpn : Nat) : Nat := vpn % NR_PTES_PER_PAGE

/-- The PTE a page table holds for `vpn`, if its outer slot is present.  Reads
through `ptbr` exactly as the C address computation
`ptbr->outer_ptes[vpn / NR_PTES_PER_PAGE]->ptes[vpn % NR_PTES_PER_PAGE]`. -/
def lookupPTE (pt : Pagetable) (vpn : Nat) : Option PTE :=
  match pt.getD (outerIndex vpn) none with
  | none => none
  | some dir => some (dir.getD (innerIndex vpn) zeroPTE)

/-- Write `pte` into the slot for `vpn`, creating (zero-initialized) the inner
directory if the outer slot is NULL, as `alloc_page` does. -/
def writePTE (pt : Pagetable) (vpn : Nat) (pte : PTE) : Pagetable :=
  let dir :=
    match pt.getD (outerIndex vpn) none with
    | none => freshDir
    | some d => d
  pt.set (outerIndex vpn) (some (dir.set (innerIndex vpn) pte))

/-- lookup_tlb(vpn, rw, *pfn): scan the TLB for a valid entry with the same
vpn whose cached permission equals the probe after the source's conversion
`rw == 2 ? 3 : rw`; return its pfn on the first hit. -/
def lookup_tlb (tlb : List TLBEntry) (vpn rw : Nat) : Option Nat :=
  match tlb with
  | [] => none
  | e :: rest =>
    if e.valid ∧ e.vpn = vpn ∧ e.rw = (if rw = 2 then 3 else rw) then some e.pfn
    else lookup_tlb rest vpn rw

/-- First pass of insert_tlb: find the first entry with `vpn` that is valid
and overwrite its `rw`/`pfn` in place; `none` if there is no such entry. -/
def tlbUpdate (tlb : List TLBEntry) (vpn rw pfn : Nat) : Option (List TLBEntry) :=
  match tlb with
  | [] => none
  | e :: rest =>
    if e.vpn = vpn ∧ e.valid then some ({ e with rw := rw, pfn := pfn } :: rest)
    else (tlbUpdate rest vpn rw pfn).map (e :: ·)

/-- Second pass of insert_tlb: install into the first invalid slot; `none` if
every slot is valid. -/
def tlbInstall (tlb : List TLBEntry) (vpn rw pfn : Nat) : Option (List TLBEntry) :=
  match tlb with
  | [] => none
  | e :: rest =>
    if e.valid then (tlbInstall rest vpn rw pfn).map (e :: ·)
    else some (⟨true, vpn, rw, pfn⟩ :: rest)

/-- insert_tlb(vpn, rw, pfn): update the existing valid entry for `vpn` in
place if there is one, else install into the first invalid slot; if both scans
fail the function falls off the end and the TLB is unchanged. -/
def insert_tlb (tlb : List TLBEntry) (vpn rw pfn : Nat) : List TLBEntry :=
  match tlbUpdate tlb vpn rw pfn with
  | some t => t
  | none =>
    match tlbInstall tlb vpn rw pfn with
    | some t => t
    | none => tlb

/-- Ascending scan of the reference counts for the first free frame (count 0),
starting at frame index `i`; this is the loop
`for (i = 0; i < NR_PAGEFRAMES; i++) if (!mapcounts[i])`. -/
def findFreeFrom : List Nat → Nat → Option Nat
  | [], _ => none
  | c :: rest, i => if c = 0 then some i else findFreeFrom rest (i + 1)

/-- First free frame of the whole reference-count array. -/
def findFree (mc : List Nat) : Option Nat := findFreeFrom mc 0

/-- alloc_page(vpn, rw): take the smallest free frame, map `vpn` to it with
`valid = true, rw = rw, private = rw`, and raise the frame's reference count;
return `none` (the C `-1`) and leave the state untouched when every frame is
in use. -/
def alloc_page (s : VMState) (vpn rw : Nat) : Option Nat × VMState :=
  match findFree s.mapcounts with
  | none => (none, s)
  | some pfn =>
    let pt := writePTE s.current.pagetable vpn ⟨true, rw, rw, pfn⟩
    let mc := s.mapcounts.set pfn (inc32 (s.mapcounts.getD pfn 0))
    (some pfn, { s with current := { s.current with pagetable := pt }, mapcounts := mc })

/-- free_page(vpn): if the outer slot is NULL, return immediately; otherwise
zero the PTE (whether or not it was valid — the source does not test the
valid bit), decrement `mapcounts` at the PTE's (possibly stale) pfn, and
invalidate every TLB entry whose vpn matches. -/
def free_page (s : VMState) (vpn : Nat) : VMState :=
  match s.current.pagetable.getD (outerIndex vpn) none with
  | none => s
  | some dir =>
    let pte := dir.getD (innerIndex vpn) zeroPTE
    let pt := s.current.pagetable.set (outerIndex vpn) (some (dir.set (innerIndex vpn) zeroPTE))
    let mc := s.mapcounts.set pte.pfn (dec32 (s.mapcounts.getD pte.pfn 0))
    let tlb := s.tlb.map (fun e => if e.vpn = vpn ∧ e.valid then invalidTLBEntry else e)
    { s with current := { s.current with pagetable := pt }, mapcounts := mc, tlb := tlb }

/-- handle_page_fault(vpn, rw): resolve a COW fault.  Only the combination
`pte valid, rw probe = ACCESS_WRITE, pte.private = ACCESS_READ+ACCESS_WRITE,
pte.rw = ACCESS_READ` is handled: promote in place when the frame's count is
1, else move the PTE onto the smallest free frame, dropping the old frame's
count; every other situation returns `false` with the state unchanged. -/
def handle_page_fault (s : VMState) (vpn rw : Nat) : Bool × VMState :=
  match s.current.pagetable.getD (outerIndex vpn) none with
  | none => (false, s)
  | some dir =>
    let pte := dir.getD (innerIndex vpn) zeroPTE
    if pte.valid ∧ rw = ACCESS_WRITE ∧ pte.«private» = ACCESS_READ + ACCESS_WRITE ∧
        pte.rw = ACCESS_READ then
      if s.mapcounts.getD pte.pfn 0 = 1 then
        let pt := s.current.pagetable.set (outerIndex vpn)
          (some (dir.set (innerIndex vpn) { pte with rw := ACCESS_READ + ACCESS_WRITE }))
        (true, { s with current := { s.current with pagetable := pt } })
      else
        match findFree s.mapcounts with
        | none => (false, s)
        | some pfn =>
          let mc1 := s.mapcounts.set pte.pfn (dec32 (s.mapcounts.getD pte.pfn 0))
          let mc2 := mc1.set pfn (inc32 (mc1.getD pfn 0))
          let pt := s.current.pagetable.set (outerIndex vpn)
            (some (dir.set (innerIndex vpn)
              { pte with pfn := pfn, rw := ACCESS_READ + ACCESS_WRITE }))
          (true, { s with current := { s.current with pagetable := pt }, mapcounts := mc2 })
    else (false, s)

/-- COW downgrade a PTE during fork: a read-write PTE (`rw = 3`) becomes
read-only, every other PTE is copied untouched; `private` is never changed. -/
def downgradePTE (p : PTE) : PTE :=
  if p.rw = ACCESS_READ + ACCESS_WRITE then { p with rw := ACCESS_READ } else p

/-- Raise the reference count of frame `f` (the `mapcounts[pfn]++` of the
fork loop). -/
def incMap (mc : List Nat) (f : Nat) : List Nat := mc.set f (inc32 (mc.getD f 0))

/-- Inner loop of the fork in switch_process, over the PTEs of one present
directory in ascending order: downgrade the parent's PTE in place, copy the
(downgraded) value to the child, and raise the mapped frame's count when the
PTE is valid.  Returns the resulting directory (identical for parent and
child) and the updated reference counts. -/
def forkDir : List PTE → List Nat → List PTE × List Nat
  | [], mc => ([], mc)
  | p :: rest, mc =>
    let p' := downgradePTE p
    let mc' := if p'.valid then incMap mc p'.pfn else mc
    let r := forkDir rest mc'
    (p' :: r.1, r.2)

/-- Outer loop of the fork in switch_process, over the outer slots in
ascending order; NULL slots are skipped (the child's slot stays NULL under
the zero-initialized-malloc model). -/
def forkTable : Pagetable → List Nat → Pagetable × List Nat
  | [], mc => ([], mc)
  | none :: rest, mc =>
    let r := forkTable rest mc
    (none :: r.1, r.2)
  | some d :: rest, mc =>
    let rd := forkDir d mc
    let r := forkTable rest rd.2
    (some rd.1 :: r.1, r.2)

/-- switch_process(pid): flush the TLB; if some queued process has `pid`,
enqueue the current process at the tail, make the found process current and
unlink it from the queue (the source's `list_del` after the search loop); if
none does and `pid` is the current process's own pid, the `list_del` acts on
a process that is not in the queue and the switch is a no-op; otherwise fork
a child with `pid` from the current process under COW and enqueue the
parent. -/
def switch_process (s : VMState) (pid : Nat) : VMState :=
  let tlb := s.tlb.map (fun _ => invalidTLBEntry)
  match s.processes.find? (fun p => p.pid == pid) with
  | some proc =>
    { s with
      tlb := tlb
      current := proc
      processes := (s.processes ++ [s.current]).eraseP (fun p => p.pid == pid) }
  | none =>
    if s.current.pid = pid then { s with tlb := tlb }
    else
      let r := forkTable s.current.pagetable s.mapcounts
      { processes := s.processes ++ [{ s.current with pagetable := r.1 }]
        current := ⟨pid, r.1⟩
        tlb := tlb
        mapcounts := r.2 }

/-- Number of valid PTEs of one directory that map frame `f`. -/
def dirCount (d : List PTE) (f : Nat) : Nat :=
  (d.filter (fun p => p.valid && p.pfn == f)).length

/-- Number of valid PTEs of one page table that map frame `f`. -/
def ptCount (pt : Pagetable) (f : Nat) : Nat :=
  (pt.map (fun od => match od with | none => 0 | some d => dirCount d f)).sum

/-- Number of valid PTEs across every process (current and queued) that map
frame `f`. -/
def totalCount (s : VMState) (f : Nat) : Nat :=
  ptCount s.current.pagetable f + (s.processes.map (fun p => ptCount p.pagetable f)).sum

/-- Reference-count invariant of the specification: every frame's `mapcounts`
cell equals the number of valid PTEs (across all processes) that map it. -/
def refcountInvariant (s : VMState) : Prop :=
  ∀ f < s.mapcounts.length, s.mapcounts.getD f 0 = totalCount s f

instance (s : VMState) : Decidable (refcountInvariant s) :=
  Nat.decidableBallLT _ _

/-- Total number of PTE slots reachable through present outer slots. -/
def totalPtes (pt : Pagetable) : Nat :=
  (pt.map (fun od => match od with | none => 0 | some d => d.length)).sum

/-! ## Concrete states used as witnesses and counterexamples -/

/-- A directory whose slot 0 holds a valid read-write PTE on frame 0; every
other slot is an invalid all-zero PTE. -/
def dirA : List PTE := ⟨true, 3, 3, 0⟩ :: List.replicate 15 zeroPTE

/-- A full-size machine state: one process (pid 0) whose vpn 0 maps frame 0
read-write, an empty ready queue, an all-invalid TLB of `NR_TLB_ENTRIES`
slots, and `NR_PAGEFRAMES` reference counts with frame 0 mapped once. -/
def stateA : VMState :=
  { processes := []
    current := ⟨0, some dirA :: List.replicate 15 none⟩
    tlb := List.replicate NR_TLB_ENTRIES invalidTLBEntry
    mapcounts := 1 :: List.replicate 127 0 }

/-- A directory whose slot 0 holds a valid PTE that was downgraded to
read-only by COW sharing (`rw = read`, `private = read|write`) on frame 0. -/
def dirC : List PTE := ⟨true, 1, 3, 0⟩ :: List.replicate 15 zeroPTE

/-- The COW-downgraded PTE sitting in slot 0 of `dirC`. -/
def pteC : PTE := ⟨true, 1, 3, 0⟩

/-- A small state whose current process (pid 0) has the read-write mapping of
`dirA` on vpn 0, with a second process (pid 7) waiting in the ready queue. -/
def stateB : VMState :=
  { processes := [⟨7, []⟩]
    current := ⟨0, some dirA :: List.replicate 15 none⟩
    tlb := [⟨true, 0, 1, 0⟩, invalidTLBEntry]
    mapcounts := [1, 0, 0] }

/-- A state where frame 0 is COW-shared (count 2) and the current process
holds the downgraded PTE `pteC` at vpn 0; frame 1 is free. -/
def stateC : VMState :=
  { processes := []
    current := ⟨0, some dirC :: List.replicate 15 none⟩
    tlb := []
    mapcounts := [2, 0] }

/-- A state where the current process is the sole owner (count 1) of frame 0
through the downgraded PTE `pteC` at vpn 0; frame 1 is free. -/
def stateD : VMState :=
  { processes := []
    current := ⟨0, some dirC :: List.replicate 15 none⟩
    tlb := []
    mapcounts := [1, 0] }

/-- A full-size TLB whose slot 0 caches vpn 0 with permission read-write
(`rw = 3`) on pfn 5; every other slot is invalid. -/
def tlbA : List TLBEntry :=
  ⟨true, 0, 3, 5⟩ :: List.replicate 255 invalidTLBEntry

/-- A full-size TLB with every slot invalid. -/
def tlbB : List TLBEntry := List.replicate NR_TLB_ENTRIES invalidTLBEntry

/-! ## Generic list helpers -/

theorem getD_set_self {α : Type} : ∀ (l : List α) (i : Nat) (v d : α), i < l.length →
    (l.set i v).getD i d = v
  | [], i, _, _, h => absurd h (by simp)
  | _ :: _, 0, _, _, _ => rfl
  | _ :: l, i + 1, v, d, h => getD_set_self l i v d (by simpa using h)

theorem getD_set_ne {α : Type} : ∀ (l : List α) (i j : Nat) (v d : α), i ≠ j →
    (l.set i v).getD j d = l.getD j d
  | [], _, _, _, _, _ => rfl
  | _ :: _, 0, 0, _, _, h => absurd rfl h
  | _ :: _, 0, _ + 1, _, _, _ => rfl
  | _ :: _, _ + 1, 0, _, _, _ => rfl
  | _ :: l, i + 1, j + 1, v, d, h =>
    getD_set_ne l i j v d (fun he => h (by rw [he]))

/-! ## Frame-allocator scan lemmas -/

theorem findFreeFrom_none : ∀ (mc : List Nat) (i : Nat), findFreeFrom mc i = none →
    ∀ k < mc.length, mc.getD k 0 ≠ 0
  | [], _, _, k, hk => absurd hk (by simp)
  | c :: rest, i, h, k, hk => by
    unfold findFreeFrom at h
    by_cases hc : c = 0
    · simp [hc] at h
    · simp only [if_neg hc] at h
      match k with
      | 0 => simpa using hc
      | k + 1 =>
        exact findFreeFrom_none rest (i + 1) h k (by simpa using hk)

theorem findFreeFrom_some : ∀ (mc : List Nat) (i j : Nat), findFreeFrom mc i = some j →
    i ≤ j ∧ j - i < mc.length ∧ mc.getD (j - i) 0 = 0 ∧ ∀ m < j - i, mc.getD m 0 ≠ 0
  | [], _, _, h => by simp [findFreeFrom] at h
  | c :: rest, i, j, h => by
    unfold findFreeFrom at h
    by_cases hc : c = 0
    · simp only [if_pos hc, Option.some.injEq] at h
      subst h
      refine ⟨Nat.le_refl _, by simp, by simpa using hc, by omega⟩
    · simp only [if_neg hc] at h
      obtain ⟨h1, h2, h3, h4⟩ := findFreeFrom_some rest (i + 1) j h
      have hji : j - i = (j - (i + 1)) + 1 := by omega
      refine ⟨by omega, by simp [hji]; omega, ?_, ?_⟩
      · rw [hji]
        simpa using h3
      · intro m hm
        match m with
        | 0 => simpa using hc
        | m + 1 =>
          have : m < j - (i + 1) := by omega
          simpa using h4 m this

theorem findFree_some (mc : List Nat) (j : Nat) (h : findFree mc = some j) :
    j < mc.length ∧ mc.getD j 0 = 0 ∧ ∀ k < j, mc.getD k 0 ≠ 0 := by
  obtain ⟨_, h2, h3, h4⟩ := findFreeFrom_some mc 0 j h
  rw [Nat.sub_zero] at h2 h3 h4
  exact ⟨h2, h3, h4⟩

theorem findFree_none (mc : List Nat) (h : findFree mc = none) :
    ∀ k < mc.length, mc.getD k 0 ≠ 0 :=
  findFreeFrom_none mc 0 h

theorem findFree_exists (mc : List Nat) (h : ∃ k, k < mc.length ∧ mc.getD k 0 = 0) :
    ∃ j, findFree mc = some j := by
  cases hf : findFree mc with
  | some j => exact ⟨j, rfl⟩
  | none =>
    obtain ⟨k, hk, hk0⟩ := h
    exact absurd hk0 (findFree_none mc hf k hk)

/-! ## TLB lemmas -/

theorem lookup_tlb_isSome_iff : ∀ (tlb : List TLBEntry) (vpn rw : Nat),
    (∃ p, lookup_tlb tlb vpn rw = some p) ↔
      ∃ e ∈ tlb, e.valid = true ∧ e.vpn = vpn ∧ e.rw = (if rw = 2 then 3 else rw)
  | [], vpn, rw => by simp [lookup_tlb]
  | e :: rest, vpn, rw => by
    unfold lookup_tlb
    by_cases hc : (e.valid : Prop) ∧ e.vpn = vpn ∧ e.rw = (if rw = 2 then 3 else rw)
    · simp only [if_pos hc]
      constructor
      · intro _
        exact ⟨e, List.mem_cons_self e rest, by simpa using hc.1, hc.2.1, hc.2.2⟩
      · intro _
        exact ⟨e.pfn, rfl⟩
    · simp only [if_neg hc]
      rw [lookup_tlb_isSome_iff rest vpn rw]
      constructor
      · rintro ⟨x, hx, hprop⟩
        exact ⟨x, List.mem_cons_of_mem e hx, hprop⟩
      · rintro ⟨x, hx, hprop⟩
        rcases List.mem_cons.mp hx with hex | hx'
        · subst hex
          exact absurd ⟨by simp [hprop.1], hprop.2.1, hprop.2.2⟩ hc
        · exact ⟨x, hx', hprop⟩

theorem tlbUpdate_none : ∀ (tlb : List TLBEntry) (vpn rw pfn : Nat),
    tlbUpdate tlb vpn rw pfn = none → ∀ e ∈ tlb, ¬(e.vpn = vpn ∧ e.valid = true)
  | [], _, _, _, _, e, he => absurd he (by simp)
  | x :: rest, vpn, rw, pfn, h, e, he => by
    unfold tlbUpdate at h
    by_cases hc : x.vpn = vpn ∧ (x.valid : Prop)
    · simp [if_pos hc] at h
    · simp only [if_neg hc, Option.map_eq_none'] at h
      rcases List.mem_cons.mp he with hex | hrest
      · subst hex
        intro hcontra
        exact hc ⟨hcontra.1, by simp [hcontra.2]⟩
      · exact tlbUpdate_none rest vpn rw pfn h e hrest

theorem tlbUpdate_lookup : ∀ (tlb t : List TLBEntry) (vpn rw pfn rw' : Nat),
    tlbUpdate tlb vpn rw pfn = some t → (if rw' = 2 then 3 else rw') = rw →
    lookup_tlb t vpn rw' = some pfn
  | [], _, _, _, _, _, h, _ => by simp [tlbUpdate] at h
  | x :: rest, t, vpn, rw, pfn, rw', h, hrw => by
    unfold tlbUpdate at h
    by_cases hc : x.vpn = vpn ∧ (x.valid : Prop)
    · simp only [if_pos hc, Option.some.injEq] at h
      subst h
      unfold lookup_tlb
      rw [if_pos ⟨by simpa using hc.2, hc.1, by rw [hrw]⟩]
    · simp only [if_neg hc, Option.map_eq_some'] at h
      obtain ⟨t', ht', rfl⟩ := h
      unfold lookup_tlb
      rw [if_neg (fun hcontra => hc ⟨hcontra.2.1, hcontra.1⟩)]
      exact tlbUpdate_lookup rest t' vpn rw pfn rw' ht' hrw

theorem tlbInstall_all_valid : ∀ (tlb : List TLBEntry) (vpn rw pfn : Nat),
    tlbInstall tlb vpn rw pfn = none → ∀ e ∈ tlb, e.valid = true
  | [], _, _, _, _, e, he => absurd he (by simp)
  | x :: rest, vpn, rw, pfn, h, e, he => by
    unfold tlbInstall at h
    by_cases hv : (x.valid : Prop)
    · simp only [if_pos hv, Option.map_eq_none'] at h
      rcases List.mem_cons.mp he with hex | hrest
      · subst hex
        simpa using hv
      · exact tlbInstall_all_valid rest vpn rw pfn h e hrest
    · simp [if_neg hv] at h

theorem tlbInstall_lookup : ∀ (tlb t : List TLBEntry) (vpn rw pfn rw' : Nat),
    tlbInstall tlb vpn rw pfn = some t →
    (∀ e ∈ tlb, ¬(e.vpn = vpn ∧ e.valid = true)) →
    (if rw' = 2 then 3 else rw') = rw →
    lookup_tlb t vpn rw' = some pfn
  | [], _, _, _, _, _, h, _, _ => by simp [tlbInstall] at h
  | x :: rest, t, vpn, rw, pfn, rw', h, hno, hrw => by
    unfold tlbInstall at h
    by_cases hv : (x.valid : Prop)
    · simp only [if_pos hv, Option.map_eq_some'] at h
      obtain ⟨t', ht', rfl⟩ := h
      unfold lookup_tlb
      have hxv : x.vpn ≠ vpn := fun he =>
        hno x (List.mem_cons_self x rest) ⟨he, by simpa using hv⟩
      rw [if_neg (fun hcontra => hxv hcontra.2.1)]
      exact tlbInstall_lookup rest t' vpn rw pfn rw' ht'
        (fun e he => hno e (List.mem_cons_of_mem x he)) hrw
    · simp only [if_neg hv, Option.some.injEq] at h
      subst h
      unfold lookup_tlb
      rw [if_pos ⟨by simp, rfl, by simp [hrw]⟩]

/-- C9 (amended): the insert-then-lookup round trip holds for a read access:
after `insert_tlb(vpn, read, pfn)` on a TLB with a free slot or an existing
valid entry for `vpn`, a read lookup for `vpn` returns exactly `pfn`.  For a
write access the round trip fails (see the counterexample): `insert_tlb`
stores the raw access value 2 while a write probe only matches cached
permission 3. -/
theorem insert_lookup_read (tlb : List TLBEntry) (vpn pfn : Nat)
    (h : (∃ e ∈ tlb, e.valid = false) ∨ (∃ e ∈ tlb, e.valid = true ∧ e.vpn = vpn)) :
    lookup_tlb (insert_tlb tlb vpn ACCESS_READ pfn) vpn ACCESS_READ = some pfn := by
  unfold insert_tlb
  cases hU : tlbUpdate tlb vpn ACCESS_READ pfn with
  | some t =>
    exact tlbUpdate_lookup tlb t vpn ACCESS_READ pfn ACCESS_READ hU (by decide)
  | none =>
    have hno := tlbUpdate_none tlb vpn ACCESS_READ pfn hU
    cases hI : tlbInstall tlb vpn ACCESS_READ pfn with
    | some t =>
      exact tlbInstall_lookup tlb t vpn ACCESS_READ pfn ACCESS_READ hI hno (by decide)
    | none =>
      have hall := tlbInstall_all_valid tlb vpn ACCESS_READ pfn hI
      rcases h with ⟨e, he, hinv⟩ | ⟨e, he, hv, hvpn⟩
      · rw [hall e he] at hinv
        exact absurd hinv (by simp)
      · exact absurd ⟨hvpn, hv⟩ (hno e he)

/-! ## Fork-loop lemmas -/

theorem downgradePTE_valid (p : PTE) : (downgradePTE p).valid = p.valid := by
  unfold downgradePTE
  split <;> rfl

theorem downgradePTE_pfn (p : PTE) : (downgradePTE p).pfn = p.pfn := by
  unfold downgradePTE
  split <;> rfl

theorem downgradePTE_private (p : PTE) : (downgradePTE p).«private» = p.«private» := by
  unfold downgradePTE
  split <;> rfl

theorem dirCount_cons (p : PTE) (rest : List PTE) (f : Nat) :
    dirCount (p :: rest) f =
      (if p.valid = true ∧ p.pfn = f then 1 else 0) + dirCount rest f := by
  by_cases h : p.valid = true ∧ p.pfn = f
  · rw [if_pos h]
    unfold dirCount
    rw [List.filter_cons, if_pos (by simp [h.1, h.2])]
    simp [Nat.add_comm]
  · rw [if_neg h]
    unfold dirCount
    rw [List.filter_cons,
      if_neg (by simp only [Bool.and_eq_true, beq_iff_eq]; exact h)]
    simp

theorem dirCount_le (d : List PTE) (f : Nat) : dirCount d f ≤ d.length :=
  List.length_filter_le _ d

theorem ptCount_cons_none (rest : Pagetable) (f : Nat) :
    ptCount (none :: rest) f = ptCount rest f := by
  simp [ptCount]

theorem ptCount_cons_some (d : List PTE) (rest : Pagetable) (f : Nat) :
    ptCount (some d :: rest) f = dirCount d f + ptCount rest f := by
  simp [ptCount]

theorem totalPtes_cons_none (rest : Pagetable) :
    totalPtes (none :: rest) = totalPtes rest := by
  simp [totalPtes]

theorem totalPtes_cons_some (d : List PTE) (rest : Pagetable) :
    totalPtes (some d :: rest) = d.length + totalPtes rest := by
  simp [totalPtes]

theorem forkDir_fst : ∀ (d : List PTE) (mc : List Nat),
    (forkDir d mc).1 = d.map downgradePTE
  | [], _ => rfl
  | p :: rest, mc => by
    unfold forkDir
    dsimp only
    rw [List.map_cons, forkDir_fst rest]

theorem forkDir_snd_length : ∀ (d : List PTE) (mc : List Nat),
    (forkDir d mc).2.length = mc.length
  | [], _ => rfl
  | p :: rest, mc => by
    unfold forkDir
    rw [forkDir_snd_length rest]
    by_cases h : ((downgradePTE p).valid : Prop)
    · simp [if_pos h, incMap]
    · simp [if_neg h]

theorem forkDir_snd_getD : ∀ (d : List PTE) (mc : List Nat),
    (∀ p ∈ d, p.valid = true → p.pfn < mc.length) →
    (∀ g < mc.length, mc.getD g 0 + d.length ≤ UINT32_MAX) →
    ∀ f, (forkDir d mc).2.getD f 0 = mc.getD f 0 + dirCount d f
  | [], _, _, _, _ => by simp [forkDir, dirCount]
  | p :: rest, mc, hpfn, hb, f => by
    unfold forkDir
    dsimp only
    have hvalid := downgradePTE_valid p
    have hpfneq := downgradePTE_pfn p
    by_cases hv : p.valid = true
    · have hplen : p.pfn < mc.length := hpfn p (List.mem_cons_self p rest) hv
      have hmcb : mc.getD p.pfn 0 < UINT32_MAX := by
        have := hb p.pfn hplen
        simp only [List.length_cons] at this
        omega
      have hinc : inc32 (mc.getD p.pfn 0) = mc.getD p.pfn 0 + 1 := by
        unfold inc32
        rw [if_neg (Nat.ne_of_lt hmcb)]
      have hcond : ((downgradePTE p).valid : Prop) := by rw [hvalid]; exact hv
      rw [if_pos hcond]
      have hlen' : (incMap mc p.pfn).length = mc.length := by simp [incMap]
      have hgetD : ∀ g, (incMap mc (downgradePTE p).pfn).getD g 0 =
          mc.getD g 0 + (if p.valid = true ∧ p.pfn = g then 1 else 0) := by
        intro g
        rw [hpfneq]
        by_cases hg : p.pfn = g
        · subst hg
          simp only [hv, and_self, if_pos, true_and]
          unfold incMap
          rw [getD_set_self mc p.pfn _ 0 hplen, hinc]
        · unfold incMap
          rw [getD_set_ne mc p.pfn g _ 0 hg]
          simp [hg]
      have ihp : ∀ q ∈ rest, q.valid = true →
          q.pfn < (incMap mc (downgradePTE p).pfn).length := by
        intro q hq hqv
        rw [hpfneq, hlen']
        exact hpfn q (List.mem_cons_of_mem p hq) hqv
      have ihb : ∀ g < (incMap mc (downgradePTE p).pfn).length,
          (incMap mc (downgradePTE p).pfn).getD g 0 + rest.length ≤ UINT32_MAX := by
        intro g hg
        have hg' : g < mc.length := by
          rw [hpfneq, hlen'] at hg
          exact hg
        rw [hgetD g]
        have := hb g hg'
        simp only [List.length_cons] at this
        by_cases hc : p.valid = true ∧ p.pfn = g
        · rw [if_pos hc]
          omega
        · rw [if_neg hc]
          omega
      rw [forkDir_snd_getD rest _ ihp ihb f, hgetD f, dirCount_cons]
      by_cases hc : p.valid = true ∧ p.pfn = f
      · rw [if_pos hc]
        omega
      · rw [if_neg hc]
        omega
    · have hcond : ¬((downgradePTE p).valid : Prop) := by
        rw [hvalid]
        simpa using hv
      rw [if_neg hcond]
      have ihb : ∀ g < mc.length, mc.getD g 0 + rest.length ≤ UINT32_MAX := by
        intro g hg
        have := hb g hg
        simp only [List.length_cons] at this
        omega
      rw [forkDir_snd_getD rest mc
        (fun q hq hqv => hpfn q (List.mem_cons_of_mem p hq) hqv) ihb f, dirCount_cons]
      simp [hv]

theorem forkTable_fst : ∀ (pt : Pagetable) (mc : List Nat),
    (forkTable pt mc).1 = pt.map (Option.map (List.map downgradePTE))
  | [], _ => rfl
  | none :: rest, mc => by
    unfold forkTable
    dsimp only
    rw [List.map_cons, Option.map_none', forkTable_fst rest mc]
  | some d :: rest, mc => by
    unfold forkTable
    dsimp only
    rw [List.map_cons, Option.map_some', forkDir_fst, forkTable_fst rest]

theorem forkTable_snd_length : ∀ (pt : Pagetable) (mc : List Nat),
    (forkTable pt mc).2.length = mc.length
  | [], _ => rfl
  | none :: rest, mc => forkTable_snd_length rest mc
  | some d :: rest, mc => by
    unfold forkTable
    rw [forkTable_snd_length rest, forkDir_snd_length]

theorem forkTable_snd_getD : ∀ (pt : Pagetable) (mc : List Nat),
    (∀ d : List PTE, some d ∈ pt → ∀ p ∈ d, p.valid = true → p.pfn < mc.length) →
    (∀ g < mc.length, mc.getD g 0 + totalPtes pt ≤ UINT32_MAX) →
    ∀ f, (forkTable pt mc).2.getD f 0 = mc.getD f 0 + ptCount pt f
  | [], _, _, _, _ => by simp [forkTable, ptCount]
  | none :: rest, mc, hpfn, hb, f => by
    unfold forkTable
    rw [forkTable_snd_getD rest mc
      (fun d hd => hpfn d (List.mem_cons_of_mem none hd))
      (by simpa [totalPtes_cons_none] using hb) f, ptCount_cons_none]
  | some d :: rest, mc, hpfn, hb, f => by
    unfold forkTable
    have hd : some d ∈ some d :: rest := List.mem_cons_self _ rest
    have hdb : ∀ g < mc.length, mc.getD g 0 + d.length ≤ UINT32_MAX := by
      intro g hg
      have := hb g hg
      rw [totalPtes_cons_some] at this
      omega
    have hdgetD := forkDir_snd_getD d mc (hpfn d hd) hdb
    have hdlen := forkDir_snd_length d mc
    have ihpfn : ∀ d' : List PTE, some d' ∈ rest → ∀ p ∈ d', p.valid = true →
        p.pfn < (forkDir d mc).2.length := by
      intro d' hd' p hp hpv
      rw [hdlen]
      exact hpfn d' (List.mem_cons_of_mem _ hd') p hp hpv
    have ihb : ∀ g < (forkDir d mc).2.length,
        (forkDir d mc).2.getD g 0 + totalPtes rest ≤ UINT32_MAX := by
      intro g hg
      rw [hdlen] at hg
      rw [hdgetD g]
      have h1 := hb g hg
      rw [totalPtes_cons_some] at h1
      have h2 := dirCount_le d g
      omega
    rw [forkTable_snd_getD rest _ ihpfn ihb f, hdgetD f, ptCount_cons_some]
    omega

/-! ## Page-table access lemmas -/

theorem getD_mem {α : Type} : ∀ (l : List (Option α)) (i : Nat) (a : α),
    l.getD i none = some a → some a ∈ l
  | [], _, _, h => by simp at h
  | x :: rest, 0, a, h => by
    rw [List.getD_cons_zero] at h
    rw [h] at *
    exact List.mem_cons_self _ _
  | x :: rest, i + 1, a, h => by
    rw [List.getD_cons_succ] at h
    exact List.mem_cons_of_mem x (getD_mem rest i a h)

theorem innerIndex_lt (vpn : Nat) : innerIndex vpn < NR_PTES_PER_PAGE :=
  Nat.mod_lt vpn (by decide)

theorem lookupPTE_writePTE (pt : Pagetable) (vpn : Nat) (pte : PTE)
    (hout : outerIndex vpn < pt.length)
    (hlen : ∀ od ∈ pt, (od.getD freshDir).length = NR_PTES_PER_PAGE) :
    lookupPTE (writePTE pt vpn pte) vpn = some pte := by
  have hinner := innerIndex_lt vpn
  cases hod : pt.getD (outerIndex vpn) none with
  | none =>
    simp only [writePTE, lookupPTE, hod]
    rw [getD_set_self pt _ _ none hout]
    dsimp only
    rw [getD_set_self freshDir _ _ zeroPTE (by simpa [freshDir] using hinner)]
  | some d =>
    have hdlen : d.length = NR_PTES_PER_PAGE := by
      have := hlen (some d) (getD_mem pt _ d hod)
      simpa using this
    simp only [writePTE, lookupPTE, hod]
    rw [getD_set_self pt _ _ none hout]
    dsimp only
    rw [getD_set_self d _ _ zeroPTE (by rw [hdlen]; exact hinner)]

/-! ## Claim theorems -/

/-- C1: the specification asserts that `mapcounts[f]` always equals the number
of valid PTEs mapping frame `f` and that every operation preserves this.  The
code falsifies it: `free_page` never tests the valid bit, so deallocating a
vpn whose PTE is invalid (here vpn 1, while only vpn 0 is mapped) decrements
`mapcounts` at the zeroed PTE's stale pfn 0 and breaks the invariant that
held before the call. -/
theorem free_page_breaks_refcount_invariant :
    refcountInvariant stateA ∧ ¬ refcountInvariant (free_page stateA 1) := by
  constructor
  · decide
  · decide

/-- C7 (amended): `free_page` is a no-op only when the outer directory slot
for the vpn is absent; this theorem proves that half of the claim. -/
theorem free_page_absent_outer_noop (s : VMState) (vpn : Nat)
    (h : s.current.pagetable.getD (outerIndex vpn) none = none) :
    free_page s vpn = s := by
  simp only [free_page, h]

/-- C7 (witness for the amended claim): in `stateB` the outer slot of vpn 17
is NULL, and `free_page` leaves the state untouched. -/
theorem free_page_absent_outer_noop_witness :
    stateB.current.pagetable.getD (outerIndex 17) none = none ∧
      free_page stateB 17 = stateB :=
  ⟨by decide, free_page_absent_outer_noop stateB 17 (by decide)⟩

/-- C7 (counterexample): the claim also calls `free_page` on a present slot
with an invalid PTE a no-op, but in `stateA` freeing the unmapped vpn 1 (its
PTE is `zeroPTE`, invalid) changes the state: `mapcounts[0]` drops from 1 to
0. -/
theorem free_page_invalid_pte_not_noop :
    lookupPTE stateA.current.pagetable 1 = some zeroPTE ∧
    zeroPTE.valid = false ∧
    free_page stateA 1 ≠ stateA ∧
    (free_page stateA 1).mapcounts.getD 0 0 = 0 ∧
    stateA.mapcounts.getD 0 0 = 1 := by
  refine ⟨by decide, by decide, by decide, by decide, by decide⟩

/-- C8 (amended): `lookup_tlb` requires an exact permission match after the
source's `rw == 2 ? 3 : rw` conversion: a read probe (1) hits exactly the
valid entries for the vpn cached with permission exactly 1, and a write probe
(2) hits exactly those cached with permission exactly 3.  In particular a
cached read-write entry does not satisfy a read probe. -/
theorem lookup_tlb_exact_match_spec (tlb : List TLBEntry) (vpn : Nat) :
    ((∃ p, lookup_tlb tlb vpn ACCESS_READ = some p) ↔
      ∃ e ∈ tlb, e.valid = true ∧ e.vpn = vpn ∧ e.rw = ACCESS_READ) ∧
    ((∃ p, lookup_tlb tlb vpn ACCESS_WRITE = some p) ↔
      ∃ e ∈ tlb, e.valid = true ∧ e.vpn = vpn ∧
        e.rw = ACCESS_READ + ACCESS_WRITE) := by
  constructor
  · have h := lookup_tlb_isSome_iff tlb vpn ACCESS_READ
    have hc : (if ACCESS_READ = 2 then 3 else ACCESS_READ) = ACCESS_READ := by decide
    rw [hc] at h
    exact h
  · have h := lookup_tlb_isSome_iff tlb vpn ACCESS_WRITE
    have hc : (if ACCESS_WRITE = 2 then 3 else ACCESS_WRITE) =
        ACCESS_READ + ACCESS_WRITE := by decide
    rw [hc] at h
    exact h

/-- C8 (counterexample): the claim says a read probe hits any valid entry for
the vpn; in `tlbA` slot 0 is a valid entry for vpn 0 cached read-write
(`rw = 3`), yet a read probe misses. -/
theorem lookup_tlb_read_probe_counterexample :
    (∃ e ∈ tlbA, e.valid = true ∧ e.vpn = 0) ∧
      lookup_tlb tlbA 0 ACCESS_READ = none := by
  constructor
  · decide
  · decide

/-- C6: switching to the current process's own pid (when, per the queue
invariant, no queued process carries that pid) only flushes the TLB: the
current process, the ready queue, every page table and every reference count
are untouched. -/
theorem switch_process_self_noop (s : VMState) (pid : Nat)
    (hq : ∀ p ∈ s.processes, p.pid ≠ pid) (hc : s.current.pid = pid) :
    switch_process s pid = { s with tlb := s.tlb.map (fun _ => invalidTLBEntry) } := by
  have hfind : s.processes.find? (fun p => p.pid == pid) = none :=
    List.find?_eq_none.mpr (fun p hp => by simpa using hq p hp)
  simp only [switch_process, hfind, if_pos hc]

/-- C6 (witness): in `stateB` (current pid 0, queue holding pid 7), switching
to pid 0 only flushes the TLB. -/
theorem switch_process_self_noop_witness :
    switch_process stateB 0 =
      { stateB with tlb := stateB.tlb.map (fun _ => invalidTLBEntry) } :=
  switch_process_self_noop stateB 0 (by decide) (by decide)

/-- C9 (witness for the amended claim): inserting vpn 3 with read access and
pfn 9 into the all-invalid `tlbB` makes the read lookup return pfn 9. -/
theorem insert_lookup_read_witness :
    lookup_tlb (insert_tlb tlbB 3 ACCESS_READ 9) 3 ACCESS_READ = some 9 :=
  insert_lookup_read tlbB 3 9 (Or.inl (by decide))

/-- C9 (counterexample): the claim asserts the round trip for every access in
read/write, but on the all-invalid `tlbB` (which has free slots) inserting
vpn 0 for write with pfn 7 and probing with write misses entirely: the insert
stores permission 2, the write probe requires cached permission 3. -/
theorem insert_then_lookup_write_misses :
    (∃ e ∈ tlbB, e.valid = false) ∧
      lookup_tlb (insert_tlb tlbB 0 ACCESS_WRITE 7) 0 ACCESS_WRITE = none := by
  constructor
  · decide
  · decide

/-- C4: when the faulting PTE is valid with `rw = read`, `private = read|write`
and its frame's reference count is exactly 1 (sole owner), a write fault is
resolved by promoting the PTE's `rw` to read-write in place: the PTE's pfn and
private field, the whole `mapcounts` table, the TLB, the ready queue and every
other PTE are unchanged. -/
theorem handle_page_fault_cow_promote (s : VMState) (vpn : Nat) (dir : List PTE) (pte : PTE)
    (hdir : s.current.pagetable.getD (outerIndex vpn) none = some dir)
    (hpte : dir.getD (innerIndex vpn) zeroPTE = pte)
    (hval : pte.valid = true)
    (hrw : pte.rw = ACCESS_READ)
    (hpriv : pte.«private» = ACCESS_READ + ACCESS_WRITE)
    (hcnt : s.mapcounts.getD pte.pfn 0 = 1) :
    handle_page_fault s vpn ACCESS_WRITE = (true,
      { s with current := { s.current with pagetable := (s.current.pagetable.set
          (outerIndex vpn) (some (dir.set (innerIndex vpn)
            { pte with rw := ACCESS_READ + ACCESS_WRITE }))) } }) := by
  unfold handle_page_fault
  rw [hdir]
  dsimp only
  rw [hpte]
  rw [if_pos ⟨hval, rfl, hpriv, hrw⟩]
  rw [if_pos hcnt]

/-- C4 (witness): in `stateD` (sole owner of frame 0 through the downgraded
PTE at vpn 0) a write fault promotes the PTE in place. -/
theorem handle_page_fault_cow_promote_witness :
    handle_page_fault stateD 0 ACCESS_WRITE = (true,
      { stateD with current := { stateD.current with pagetable := (stateD.current.pagetable.set
          (outerIndex 0) (some (dirC.set (innerIndex 0)
            { pteC with rw := ACCESS_READ + ACCESS_WRITE }))) } }) :=
  handle_page_fault_cow_promote stateD 0 dirC pteC (by decide) (by decide) (by decide)
    (by decide) (by decide) (by decide)

/-- C3: when the faulting PTE is valid with `rw = read`,
`private = read|write` and its frame is shared (reference count above 1), a
write fault with a free frame available moves the PTE onto the
smallest-numbered free frame `j` with `rw` promoted to read-write, decrements
the old frame's count by exactly one, sets the new frame's count to 1, and
leaves the TLB, the ready queue (hence every other process's PTEs and
permissions) and all other mappings untouched; with no free frame it fails
and changes nothing. -/
theorem handle_page_fault_cow_duplicate (s : VMState) (vpn : Nat) (dir : List PTE) (pte : PTE)
    (hdir : s.current.pagetable.getD (outerIndex vpn) none = some dir)
    (hpte : dir.getD (innerIndex vpn) zeroPTE = pte)
    (hval : pte.valid = true)
    (hrw : pte.rw = ACCESS_READ)
    (hpriv : pte.«private» = ACCESS_READ + ACCESS_WRITE)
    (hcnt : 1 < s.mapcounts.getD pte.pfn 0)
    (hplen : pte.pfn < s.mapcounts.length) :
    ((∃ k, k < s.mapcounts.length ∧ s.mapcounts.getD k 0 = 0) →
      ∃ j, j < s.mapcounts.length ∧ s.mapcounts.getD j 0 = 0 ∧
        (∀ k < j, s.mapcounts.getD k 0 ≠ 0) ∧
        handle_page_fault s vpn ACCESS_WRITE = (true,
          { s with
            current := { s.current with pagetable := (s.current.pagetable.set
              (outerIndex vpn) (some (dir.set (innerIndex vpn)
                { pte with pfn := j, rw := ACCESS_READ + ACCESS_WRITE }))) }
            mapcounts := ((s.mapcounts.set pte.pfn
              (s.mapcounts.getD pte.pfn 0 - 1)).set j 1) }) ∧
        (handle_page_fault s vpn ACCESS_WRITE).2.mapcounts.getD pte.pfn 0 =
          s.mapcounts.getD pte.pfn 0 - 1 ∧
        (handle_page_fault s vpn ACCESS_WRITE).2.mapcounts.getD j 0 = 1) ∧
    ((∀ k < s.mapcounts.length, s.mapcounts.getD k 0 ≠ 0) →
      handle_page_fault s vpn ACCESS_WRITE = (false, s)) := by
  constructor
  · rintro ⟨k, hk, hk0⟩
    obtain ⟨j, hfind⟩ := findFree_exists s.mapcounts ⟨k, hk, hk0⟩
    obtain ⟨hjlen, hj0, hjmin⟩ := findFree_some s.mapcounts j hfind
    have hjne : j ≠ pte.pfn := fun he => by
      rw [he] at hj0
      omega
    have heq : handle_page_fault s vpn ACCESS_WRITE = (true,
        { s with
          current := { s.current with pagetable := (s.current.pagetable.set
            (outerIndex vpn) (some (dir.set (innerIndex vpn)
              { pte with pfn := j, rw := ACCESS_READ + ACCESS_WRITE }))) }
          mapcounts := ((s.mapcounts.set pte.pfn
            (s.mapcounts.getD pte.pfn 0 - 1)).set j 1) }) := by
      unfold handle_page_fault
      rw [hdir]
      dsimp only
      rw [hpte]
      rw [if_pos ⟨hval, rfl, hpriv, hrw⟩]
      rw [if_neg (by omega)]
      rw [hfind]
      dsimp only
      have hdec : dec32 (s.mapcounts.getD pte.pfn 0) = s.mapcounts.getD pte.pfn 0 - 1 := by
        unfold dec32
        rw [if_neg (by omega)]
      rw [hdec]
      have hmc1 : (s.mapcounts.set pte.pfn
          (s.mapcounts.getD pte.pfn 0 - 1)).getD j 0 = 0 := by
        rw [getD_set_ne s.mapcounts pte.pfn j _ 0 (fun he => hjne he.symm)]
        exact hj0
      rw [hmc1]
      have hinc : inc32 0 = 1 := by decide
      rw [hinc]
    refine ⟨j, hjlen, hj0, hjmin, heq, ?_, ?_⟩
    · rw [heq]
      dsimp only
      rw [getD_set_ne _ j pte.pfn _ 0 hjne]
      exact getD_set_self s.mapcounts pte.pfn _ 0 hplen
    · rw [heq]
      dsimp only
      exact getD_set_self _ j _ 0 (by rw [List.length_set]; exact hjlen)
  · intro hnone
    have hfind : findFree s.mapcounts = none := by
      cases hf : findFree s.mapcounts with
      | none => rfl
      | some j =>
        obtain ⟨hjlen, hj0, _⟩ := findFree_some s.mapcounts j hf
        exact absurd hj0 (hnone j hjlen)
    unfold handle_page_fault
    rw [hdir]
    dsimp only
    rw [hpte]
    rw [if_pos ⟨hval, rfl, hpriv, hrw⟩]
    rw [if_neg (by omega)]
    rw [hfind]

/-- C3 (witness): in `stateC` (frame 0 shared with count 2, downgraded PTE at
vpn 0, frame 1 free) the write fault succeeds, moving the writer onto frame 1
and dropping frame 0's count to 1. -/
theorem handle_page_fault_cow_duplicate_witness :
    ∃ j, j < stateC.mapcounts.length ∧ stateC.mapcounts.getD j 0 = 0 ∧
      (∀ k < j, stateC.mapcounts.getD k 0 ≠ 0) ∧
      handle_page_fault stateC 0 ACCESS_WRITE = (true,
        { stateC with
          current := { stateC.current with pagetable := (stateC.current.pagetable.set
            (outerIndex 0) (some (dirC.set (innerIndex 0)
              { pteC with pfn := j, rw := ACCESS_READ + ACCESS_WRITE }))) }
          mapcounts := ((stateC.mapcounts.set pteC.pfn
            (stateC.mapcounts.getD pteC.pfn 0 - 1)).set j 1) }) ∧
      (handle_page_fault stateC 0 ACCESS_WRITE).2.mapcounts.getD pteC.pfn 0 =
        stateC.mapcounts.getD pteC.pfn 0 - 1 ∧
      (handle_page_fault stateC 0 ACCESS_WRITE).2.mapcounts.getD j 0 = 1 :=
  (handle_page_fault_cow_duplicate stateC 0 dirC pteC (by decide) (by decide) (by decide)
    (by decide) (by decide) (by decide) (by decide)).1 ⟨1, by decide, by decide⟩

/-- C5: with at least one free frame, `alloc_page` returns the
smallest-numbered frame `j` whose reference count is zero, installs the PTE
`valid = true, rw = access, private = access, pfn = j` for the vpn, sets that
frame's count to exactly 1, and touches neither the TLB nor the ready queue;
with no free frame it returns the no-frame sentinel (`none`, the C `-1`) and
changes nothing. -/
theorem alloc_page_spec (s : VMState) (vpn rw : Nat)
    (hout : outerIndex vpn < s.current.pagetable.length)
    (hlen : ∀ od ∈ s.current.pagetable, (od.getD freshDir).length = NR_PTES_PER_PAGE) :
    ((∃ k, k < s.mapcounts.length ∧ s.mapcounts.getD k 0 = 0) →
      ∃ j, j < s.mapcounts.length ∧ s.mapcounts.getD j 0 = 0 ∧
        (∀ k < j, s.mapcounts.getD k 0 ≠ 0) ∧
        (alloc_page s vpn rw).1 = some j ∧
        lookupPTE (alloc_page s vpn rw).2.current.pagetable vpn = some ⟨true, rw, rw, j⟩ ∧
        (alloc_page s vpn rw).2.mapcounts = s.mapcounts.set j 1 ∧
        (alloc_page s vpn rw).2.tlb = s.tlb ∧
        (alloc_page s vpn rw).2.processes = s.processes) ∧
    ((∀ k < s.mapcounts.length, s.mapcounts.getD k 0 ≠ 0) →
      alloc_page s vpn rw = (none, s)) := by
  constructor
  · rintro ⟨k, hk, hk0⟩
    obtain ⟨j, hfind⟩ := findFree_exists s.mapcounts ⟨k, hk, hk0⟩
    obtain ⟨hjlen, hj0, hjmin⟩ := findFree_some s.mapcounts j hfind
    have halloc : alloc_page s vpn rw = (some j,
        { s with
          current := { s.current with pagetable := (writePTE
            s.current.pagetable vpn ⟨true, rw, rw, j⟩) }
          mapcounts := s.mapcounts.set j (inc32 (s.mapcounts.getD j 0)) }) := by
      unfold alloc_page
      rw [hfind]
    refine ⟨j, hjlen, hj0, hjmin, by rw [halloc], ?_, ?_, by rw [halloc], by rw [halloc]⟩
    · rw [halloc]
      exact lookupPTE_writePTE s.current.pagetable vpn _ hout hlen
    · rw [halloc]
      dsimp only
      rw [hj0]
      have hinc : inc32 0 = 1 := by decide
      rw [hinc]
  · intro hnone
    have hfind : findFree s.mapcounts = none := by
      cases hf : findFree s.mapcounts with
      | none => rfl
      | some j =>
        obtain ⟨hjlen, hj0, _⟩ := findFree_some s.mapcounts j hf
        exact absurd hj0 (hnone j hjlen)
    unfold alloc_page
    rw [hfind]

/-- C10: calling `alloc_page` on a vpn whose PTE is already valid and maps
frame `pte.pfn` (count at least 1) silently overwrites the PTE with the
smallest free frame `j` and raises `j`'s count to 1, while the old frame's
reference count is left exactly unchanged — it is never decremented even
though this process's slot no longer points at it. -/
theorem alloc_page_overwrite_leaks (s : VMState) (vpn rw : Nat) (pte : PTE)
    (hout : outerIndex vpn < s.current.pagetable.length)
    (hlen : ∀ od ∈ s.current.pagetable, (od.getD freshDir).length = NR_PTES_PER_PAGE)
    (hpte : lookupPTE s.current.pagetable vpn = some pte)
    (hval : pte.valid = true)
    (hcnt : 1 ≤ s.mapcounts.getD pte.pfn 0)
    (hfree : ∃ k, k < s.mapcounts.length ∧ s.mapcounts.getD k 0 = 0) :
    ∃ j, j < s.mapcounts.length ∧ s.mapcounts.getD j 0 = 0 ∧
      (∀ k < j, s.mapcounts.getD k 0 ≠ 0) ∧
      (alloc_page s vpn rw).1 = some j ∧
      lookupPTE (alloc_page s vpn rw).2.current.pagetable vpn = some ⟨true, rw, rw, j⟩ ∧
      (alloc_page s vpn rw).2.mapcounts.getD pte.pfn 0 = s.mapcounts.getD pte.pfn 0 ∧
      (alloc_page s vpn rw).2.mapcounts.getD j 0 = 1 := by
  obtain ⟨k, hk, hk0⟩ := hfree
  obtain ⟨j, hfind⟩ := findFree_exists s.mapcounts ⟨k, hk, hk0⟩
  obtain ⟨hjlen, hj0, hjmin⟩ := findFree_some s.mapcounts j hfind
  have hjne : j ≠ pte.pfn := fun he => by
    rw [he] at hj0
    omega
  have halloc : alloc_page s vpn rw = (some j,
      { s with
        current := { s.current with pagetable := (writePTE
          s.current.pagetable vpn ⟨true, rw, rw, j⟩) }
        mapcounts := s.mapcounts.set j (inc32 (s.mapcounts.getD j 0)) }) := by
    unfold alloc_page
    rw [hfind]
  refine ⟨j, hjlen, hj0, hjmin, by rw [halloc], ?_, ?_, ?_⟩
  · rw [halloc]
    exact lookupPTE_writePTE s.current.pagetable vpn _ hout hlen
  · rw [halloc]
    dsimp only
    exact getD_set_ne s.mapcounts j pte.pfn _ 0 hjne
  · rw [halloc]
    dsimp only
    rw [hj0]
    have hinc : inc32 0 = 1 := by decide
    rw [hinc]
    exact getD_set_self s.mapcounts j 1 0 hjlen

/-- C5 (witness): in `stateD` (frame 0 in use, frame 1 free) allocating vpn 20
— whose outer slot is NULL — grabs frame 1, installs the PTE and sets frame
1's count to 1. -/
theorem alloc_page_spec_witness :
    ∃ j, j < stateD.mapcounts.length ∧ stateD.mapcounts.getD j 0 = 0 ∧
      (∀ k < j, stateD.mapcounts.getD k 0 ≠ 0) ∧
      (alloc_page stateD 20 3).1 = some j ∧
      lookupPTE (alloc_page stateD 20 3).2.current.pagetable 20 = some ⟨true, 3, 3, j⟩ ∧
      (alloc_page stateD 20 3).2.mapcounts = stateD.mapcounts.set j 1 ∧
      (alloc_page stateD 20 3).2.tlb = stateD.tlb ∧
      (alloc_page stateD 20 3).2.processes = stateD.processes :=
  (alloc_page_spec stateD 20 3 (by decide) (by decide)).1 ⟨1, by decide, by decide⟩

/-- C10 (witness): in `stateD` vpn 0 already maps frame 0 (count 1);
re-allocating vpn 0 moves the PTE onto frame 1 and leaves frame 0's count at
1 — the stale reference is leaked. -/
theorem alloc_page_overwrite_leaks_witness :
    ∃ j, j < stateD.mapcounts.length ∧ stateD.mapcounts.getD j 0 = 0 ∧
      (∀ k < j, stateD.mapcounts.getD k 0 ≠ 0) ∧
      (alloc_page stateD 0 3).1 = some j ∧
      lookupPTE (alloc_page stateD 0 3).2.current.pagetable 0 = some ⟨true, 3, 3, j⟩ ∧
      (alloc_page stateD 0 3).2.mapcounts.getD pteC.pfn 0 =
        stateD.mapcounts.getD pteC.pfn 0 ∧
      (alloc_page stateD 0 3).2.mapcounts.getD j 0 = 1 :=
  alloc_page_overwrite_leaks stateD 0 3 pteC (by decide) (by decide) (by decide)
    (by decide) (by decide) ⟨1, by decide, by decide⟩

/-- C2: switching to a pid that is neither in the ready queue nor the current
pid forks.  Afterwards the previous current process (now at the queue's tail)
holds its page table with every PTE passed through `downgradePTE` — a
read-write PTE becomes `{ p with rw := read }`, keeping `private`, `pfn` and
`valid` untouched, and any other PTE is copied verbatim; the child (now
current, with the requested pid) holds exactly the same (post-downgrade) PTE
values; and every frame's reference count grows by exactly the number of
valid PTEs of the forked table that map it (one per valid PTE, the child's
new mapping).  The bound hypothesis `hb` only rules out 32-bit counter
overflow of the C `mapcounts[...]++`. -/
theorem switch_process_fork_spec (s : VMState) (pid : Nat)
    (hq : ∀ p ∈ s.processes, p.pid ≠ pid)
    (hcur : s.current.pid ≠ pid)
    (hpfn : ∀ od ∈ s.current.pagetable, ∀ p ∈ od.getD [], p.valid = true →
      p.pfn < s.mapcounts.length)
    (hb : ∀ g < s.mapcounts.length,
      s.mapcounts.getD g 0 + totalPtes s.current.pagetable ≤ UINT32_MAX) :
    (switch_process s pid).current =
      ⟨pid, s.current.pagetable.map (Option.map (List.map downgradePTE))⟩ ∧
    (switch_process s pid).processes = s.processes ++
      [{ s.current with pagetable :=
          (s.current.pagetable.map (Option.map (List.map downgradePTE))) }] ∧
    (∀ f, (switch_process s pid).mapcounts.getD f 0 =
      s.mapcounts.getD f 0 + ptCount s.current.pagetable f) ∧
    (switch_process s pid).tlb = s.tlb.map (fun _ => invalidTLBEntry) ∧
    (∀ p : PTE, p.rw = ACCESS_READ + ACCESS_WRITE →
      downgradePTE p = { p with rw := ACCESS_READ }) ∧
    (∀ p : PTE, p.rw ≠ ACCESS_READ + ACCESS_WRITE → downgradePTE p = p) := by
  have hfind : s.processes.find? (fun p => p.pid == pid) = none :=
    List.find?_eq_none.mpr (fun p hp => by simpa using hq p hp)
  have hswitch : switch_process s pid =
      { processes := (s.processes ++
          [{ s.current with pagetable := (forkTable s.current.pagetable s.mapcounts).1 }])
        current := ⟨pid, (forkTable s.current.pagetable s.mapcounts).1⟩
        tlb := s.tlb.map (fun _ => invalidTLBEntry)
        mapcounts := (forkTable s.current.pagetable s.mapcounts).2 } := by
    unfold switch_process
    rw [hfind]
    dsimp only
    rw [if_neg hcur]
  have hfst := forkTable_fst s.current.pagetable s.mapcounts
  have hpfn' : ∀ d : List PTE, some d ∈ s.current.pagetable → ∀ p ∈ d, p.valid = true →
      p.pfn < s.mapcounts.length := by
    intro d hd p hp hv
    exact hpfn (some d) hd p (by simpa using hp) hv
  have hsnd := forkTable_snd_getD s.current.pagetable s.mapcounts hpfn' hb
  refine ⟨?_, ?_, ?_, ?_, ?_, ?_⟩
  · rw [hswitch]
    dsimp only
    rw [hfst]
  · rw [hswitch]
    dsimp only
    rw [hfst]
  · intro f
    rw [hswitch]
    dsimp only
    exact hsnd f
  · rw [hswitch]
  · intro p hp
    unfold downgradePTE
    rw [if_pos hp]
  · intro p hp
    unfold downgradePTE
    rw [if_neg hp]

/-- C2 (witness): forking pid 5 from `stateB` (current pid 0 maps vpn 0 to
frame 0 read-write, pid 7 queued). -/
theorem switch_process_fork_spec_witness :
    (switch_process stateB 5).current =
      ⟨5, stateB.current.pagetable.map (Option.map (List.map downgradePTE))⟩ ∧
    (switch_process stateB 5).processes = stateB.processes ++
      [{ stateB.current with pagetable :=
          (stateB.current.pagetable.map (Option.map (List.map downgradePTE))) }] ∧
    (∀ f, (switch_process stateB 5).mapcounts.getD f 0 =
      stateB.mapcounts.getD f 0 + ptCount stateB.current.pagetable f) ∧
    (switch_process stateB 5).tlb = stateB.tlb.map (fun _ => invalidTLBEntry) ∧
    (∀ p : PTE, p.rw = ACCESS_READ + ACCESS_WRITE →
      downgradePTE p = { p with rw := ACCESS_READ }) ∧
    (∀ p : PTE, p.rw ≠ ACCESS_READ + ACCESS_WRITE → downgradePTE p = p) :=
  switch_process_fork_spec stateB 5 (by decide) (by decide) (by decide) (by decide)
